import Mathlib

/-!
# Verification of the `libjavabuildpack` packager

A shallow embedding of `packager.go` from the `libjavabuildpack` repository.
Strings are modelled as `List Char`; the Go standard-library helpers the code
uses (`strings.Split`, `strings.Replace`, `strings.Join`, `filepath.Clean`,
`filepath.Join`, `filepath.Rel`, `time.Time.Format`) are embedded at the level
of characters and path segments, matching their documented Unix behaviour.
Side effects of a packaging run (executing the pre-package command, downloading
dependency layers, opening the archive file, writing tar entries) are recorded
in an explicit event trace.
-/

set_option maxRecDepth 20000

namespace LibJavaBuildpack

/-- Strings are lists of characters. -/
abbrev Str := List Char

instance {ε α : Type} [DecidableEq ε] [DecidableEq α] : DecidableEq (Except ε α) :=
  fun a b =>
    match a, b with
    | .ok x, .ok y => if h : x = y then .isTrue (by rw [h]) else .isFalse (by simp [h])
    | .error x, .error y => if h : x = y then .isTrue (by rw [h]) else .isFalse (by simp [h])
    | .ok _, .error _ => .isFalse (by simp)
    | .error _, .ok _ => .isFalse (by simp)

/-! ## Go string primitives -/

/-- Go `strings.Split(s, sep)` for a one-character separator `sep`.
`Split("", sep) = [""]`, and separators at the ends produce empty fields,
exactly as in Go. -/
def splitChar (c : Char) : Str → List Str
  | [] => [[]]
  | x :: xs =>
    match splitChar c xs with
    | [] => [[]]
    | s :: ss => if x = c then [] :: s :: ss else (x :: s) :: ss

/-- Go `strings.Join(ss, sep)` for a one-character separator. -/
def joinSep (c : Char) : List Str → Str
  | [] => []
  | [s] => s
  | s :: s2 :: ss => s ++ c :: joinSep c (s2 :: ss)

/-- Whether `old` occurs as a contiguous substring of `s`. -/
def containsSub (old : Str) : Str → Bool
  | [] => old.isPrefixOf ([] : Str)
  | x :: xs => old.isPrefixOf (x :: xs) || containsSub old xs

/-- Go `strings.Replace(s, old, new, 1)`: replace the first occurrence of
`old` in `s` by `new` (the whole string is returned unchanged when `old`
does not occur). -/
def replaceFirst (old new : Str) : Str → Str
  | [] => if old.isPrefixOf ([] : Str) then new else []
  | x :: xs =>
    if old.isPrefixOf (x :: xs) then new ++ (x :: xs).drop old.length
    else x :: replaceFirst old new xs

/-! ## Go `path/filepath` (Unix rules) -/

/-- One step of `filepath.Clean`, working on one slash-separated segment:
empty and `.` segments are dropped, `..` pops the previous real segment when
possible (and is dropped at the root of a rooted path, kept otherwise), and a
real segment is appended. -/
def cleanStep (rooted : Bool) (acc : List Str) (seg : Str) : List Str :=
  if seg = [] ∨ seg = ['.'] then acc
  else if seg = ['.', '.'] then
    if acc ≠ [] ∧ acc.getLast? ≠ some ['.', '.'] then acc.dropLast
    else if rooted then acc
    else acc ++ [['.', '.']]
  else acc ++ [seg]

/-- Go `filepath.Clean` on Unix, via its slash-separated segments. -/
def clean (s : Str) : Str :=
  match s with
  | [] => ['.']
  | c :: _ =>
    let rooted := c = '/'
    let acc := (splitChar '/' s).foldl (cleanStep rooted) []
    if rooted then '/' :: joinSep '/' acc
    else if acc = [] then ['.']
    else joinSep '/' acc

/-- Go `filepath.Join`: drop leading empty elements, join the rest with `/`
and `Clean` the result; all-empty input gives the empty string. -/
def filepathJoin : List Str → Str
  | [] => []
  | e :: rest => if e = [] then filepathJoin rest else clean (joinSep '/' (e :: rest))

/-- The errors a packaging run can surface. -/
inductive PError where
  /-- `osArgs i` failed: `os.Args` has no element at index `i`. -/
  | missingArg (i : Nat)
  /-- `os.Open`/`Stat` failed for a file being added to the archive. -/
  | fileNotFound (path : Str)
  /-- The pre-package command failed to spawn or exited non-zero. -/
  | cmdFailed (code : Nat)
  /-- An error surfaced by the Buildpack or Cache collaborator. -/
  | collab (msg : Str)
  /-- `filepath.Rel` could not make `targ` relative to `base`. -/
  | relError (base targ : Str)
deriving DecidableEq, Repr

/-- The non-root segments of a cleaned path (`.` has none; for a rooted path
the leading empty field of the split is dropped by the filter). -/
def relSegs (s : Str) : List Str :=
  if s = ['.'] then [] else (splitChar '/' s).filter (fun seg => !seg.isEmpty)

/-- Drop the longest common segment-list heads of two segment lists
(the element-scanning loop of `filepath.Rel`). -/
def dropCommon : List Str → List Str → List Str × List Str
  | x :: xs, y :: ys => if x = y then dropCommon xs ys else (x :: xs, y :: ys)
  | xs, ys => (xs, ys)

/-- Go `filepath.Rel(base, targ)` on Unix: clean both paths, require equal
rootedness, strip the common leading segments, refuse a base that still
starts with `..`, and climb with one `..` per remaining base segment before
descending into the remaining target segments. -/
def rel (base targ : Str) : Except PError Str :=
  let b := clean base
  let t := clean targ
  if b = t then .ok ['.']
  else if (b.head? = some '/') ≠ (t.head? = some '/') then .error (.relError base targ)
  else
    let bs := (dropCommon (relSegs b) (relSegs t)).1
    let ts := (dropCommon (relSegs b) (relSegs t)).2
    if bs.head? = some ['.', '.'] then .error (.relError base targ)
    else
      let segs := bs.map (fun _ => (['.', '.'] : Str)) ++ ts
      if segs = [] then .ok ['.'] else .ok (joinSep '/' segs)

/-! ## Go `time` formatting -/

/-- A wall-clock instant, to the second (the precision layout
`"20060102.150405"` uses). -/
structure DTime where
  year : Nat
  month : Nat
  day : Nat
  hour : Nat
  minute : Nat
  second : Nat
deriving DecidableEq, Repr

/-- Decimal digits of `n`, left-padded with `'0'` to width `w`. -/
def padNum (w n : Nat) : Str :=
  let d := Nat.toDigits 10 n
  List.replicate (w - d.length) '0' ++ d

/-- Go `t.Format("20060102.150405")`: `YYYYMMDD.HHMMSS`. -/
def timeStamp (t : DTime) : Str :=
  padNum 4 t.year ++ padNum 2 t.month ++ padNum 2 t.day ++
    '.' :: (padNum 2 t.hour ++ padNum 2 t.minute ++ padNum 2 t.second)

/-! ## Data model

The `Buildpack`, `Cache`, `CacheLayer` and `Logger` types live in other files
of the repository and wrap the external `libbuildpack` library; only their
interfaces are used by `packager.go`.  They are modelled from the spec (§6):
collaborator calls are pure reads of pre-supplied data.  Logging calls are not
modelled. -/

/-- Modelled from the spec: a declared dependency — "an identifier+version
pair plus enough metadata for the Cache to locate/download it". -/
structure Dependency where
  ID : Str
  Version : Str
deriving DecidableEq, Repr

/-- `Info` of a buildpack: its `ID` and `Version`. -/
structure BuildpackInfo where
  ID : Str
  Version : Str
deriving DecidableEq, Repr

/-- Modelled from the spec: the Buildpack collaborator exposes `Root`,
`Info.{ID,Version}`, `IncludeFiles()`, `Dependencies()` and `PrePackage()`;
the fallible accessors are carried as pre-supplied results. -/
structure Buildpack where
  Info : BuildpackInfo
  Root : Str
  IncludeFiles : Except PError (List Str)
  Dependencies : Except PError (List Dependency)
  PrePackage : Option Str

/-- Modelled from the spec: a cache layer exposes its `Root`, `Artifact()
→ (absolutePath, error)` and `Metadata(root) → absolutePath`. -/
structure CacheLayer where
  Root : Str
  Artifact : Except PError Str
  Metadata : Str → Str

/-- Modelled from the spec: the Cache collaborator exposes
`DownloadLayer(Dependency) → CacheLayer`. -/
structure Cache where
  DownloadLayer : Dependency → CacheLayer

/-- The root element for packaging up a buildpack (the `Logger` field of the
Go struct is omitted: logging is not modelled). -/
structure Packager where
  Buildpack : Buildpack
  Cache : Cache

/-- The metadata and content `os.Stat`/`os.Open` yield for a regular file;
`Stat().Size()` is the byte length of the content. -/
structure FileInfo where
  content : List Nat
  mode : Nat
  modTime : Nat
deriving DecidableEq, Repr

/-- A tar header as `addFile` fills it, together with the bytes
`io.Copy` streams after it. -/
structure TarHeader where
  Name : Str
  Size : Nat
  Mode : Nat
  ModTime : Nat
  content : List Nat
deriving DecidableEq, Repr

/-- The observable side effects of one packaging run. -/
inductive Event where
  /-- `cmd.Run()` was invoked with this argv and working directory. -/
  | ranPrePackage (argv : List Str) (cwd : Str)
  /-- `Cache.DownloadLayer` was invoked for this dependency. -/
  | downloadedLayer (dep : Dependency)
  /-- `os.OpenFile(path, flags, perm)` created/opened the archive file. -/
  | openedArchive (path : Str) (flags : Nat) (perm : Nat)
  /-- A tar header and its content were written into the archive. -/
  | addedEntry (entry : TarHeader)
deriving DecidableEq, Repr

/-- The ambient process state: `os.Args`, the current time, the readable
file system, and the outcome of running an external command (argv, cwd).
Writes (`MkdirAll`, `OpenFile`, tar output) always succeed in this model and
are recorded as events. -/
structure Env where
  Args : List Str
  now : DTime
  fs : Str → Option FileInfo
  cmdExec : List Str → Str → Except PError Unit

/-- Modelled from the spec: `osArgs(i)` returns the `i`-th CLI argument and
"fails if the output-directory argument is missing". -/
def osArgs (args : List Str) (i : Nat) : Except PError Str :=
  match args.get? i with
  | none => .error (.missingArg i)
  | some a => .ok a

/-- Go `exec.Command(name, arg...)`: the argv is the name followed by the
arguments, with no shell interpretation or word splitting. -/
def execCommand (name : Str) (arg : List Str) : List Str :=
  name :: arg

/-! ## The packager (`packager.go`) -/

/-- The Linux `os.O_RDWR` flag. -/
def oRDWR : Nat := 2
/-- The Linux `os.O_CREATE` flag. -/
def oCREATE : Nat := 64
/-- The Linux `os.O_TRUNC` flag. -/
def oTRUNC : Nat := 512

/-- The archive file name before `SNAPSHOT` substitution:
`fmt.Sprintf("%s-%s.tgz", info.ID, info.Version)`. -/
def tgzName (info : BuildpackInfo) : Str :=
  info.ID ++ '-' :: info.Version ++ ('.' :: ['t', 'g', 'z'])

/-- `Packager.archivePath`: reads the output directory from `os.Args[1]`,
builds `[dir, id-segments…, id, version]`, appends the file name
`<id>-<version>.tgz` with the first `SNAPSHOT` occurrence replaced by
`<now formatted "20060102.150405">-1`, and `filepath.Join`s everything. -/
def Packager.archivePath (p : Packager) (env : Env) : Except PError Str :=
  match osArgs env.Args 1 with
  | .error e => .error e
  | .ok dir =>
    let info := p.Buildpack.Info
    let f := replaceFirst "SNAPSHOT".data (timeStamp env.now ++ ['-', '1']) (tgzName info)
    .ok (filepathJoin ([dir] ++ splitChar '.' info.ID ++ [info.ID, info.Version, f]))

/-- `Packager.addFile`: opens and stats the source at
`filepath.Join(root, path)` and produces the tar header (name, size, mode,
modification time) plus the copied content. -/
def Packager.addFile (p : Packager) (env : Env) (path : Str) : Except PError TarHeader :=
  match env.fs (filepathJoin [p.Buildpack.Root, path]) with
  | none => .error (.fileNotFound path)
  | some info =>
    .ok { Name := path, Size := info.content.length, Mode := info.mode,
          ModTime := info.modTime, content := info.content }

/-- The `for _, file := range files` loop of `createArchive`: add each file in
order, stopping at the first failure. -/
def addFiles (p : Packager) (env : Env) : List Str → Except PError Unit × List Event
  | [] => (.ok (), [])
  | f :: fs =>
    match p.addFile env f with
    | .error e => (.error e, [])
    | .ok entry =>
      let rest := addFiles p env fs
      (rest.1, .addedEntry entry :: rest.2)

/-- `Packager.createArchive`: compute the archive path (failing here when the
output-directory argument is missing), open the destination with
`O_RDWR|O_CREATE|O_TRUNC` and permissions `0644`, and stream the files into
the gzip+tar writer in order. -/
def Packager.createArchive (p : Packager) (env : Env) (files : List Str) :
    Except PError Unit × List Event :=
  match p.archivePath env with
  | .error e => (.error e, [])
  | .ok archive =>
    let rest := addFiles p env files
    (rest.1, .openedArchive archive (oRDWR ||| oCREATE ||| oTRUNC) 0o644 :: rest.2)

/-- The `for _, dep := range deps` loop of `cacheDependencies`: download each
layer, relativize its artifact and metadata paths against the buildpack root,
and collect the flat `[artifact, metadata, …]` list. -/
def cacheDeps (cache : Cache) (root : Str) : List Dependency → Except PError (List Str) × List Event
  | [] => (.ok [], [])
  | d :: ds =>
    let layer := cache.DownloadLayer d
    let ev := Event.downloadedLayer d
    match layer.Artifact with
    | .error e => (.error e, [ev])
    | .ok a =>
      match rel root a with
      | .error e => (.error e, [ev])
      | .ok artifact =>
        match rel root (layer.Metadata layer.Root) with
        | .error e => (.error e, [ev])
        | .ok metadata =>
          let rest := cacheDeps cache root ds
          match rest.1 with
          | .error e => (.error e, ev :: rest.2)
          | .ok files => (.ok (artifact :: metadata :: files), ev :: rest.2)

/-- `Packager.cacheDependencies`: ask the buildpack for its declared
dependencies and cache each one in declaration order. -/
def Packager.cacheDependencies (p : Packager) : Except PError (List Str) × List Event :=
  match p.Buildpack.Dependencies with
  | .error e => (.error e, [])
  | .ok deps => cacheDeps p.Cache p.Buildpack.Root deps

/-- `Packager.prePackage`: a declared command is run via `exec.Command(pp)`
(argv `[pp]`) with working directory the buildpack root; no declared command
is a successful no-op. -/
def Packager.prePackage (p : Packager) (env : Env) : Except PError Unit × List Event :=
  match p.Buildpack.PrePackage with
  | none => (.ok (), [])
  | some pp =>
    let argv := execCommand pp []
    (env.cmdExec argv p.Buildpack.Root, [.ranPrePackage argv p.Buildpack.Root])

/-- `Packager.Create`: pre-package hook, then included files, then dependency
caching, then the archive; any failure short-circuits the remaining stages. -/
def Packager.Create (p : Packager) (env : Env) : Except PError Unit × List Event :=
  let pre := p.prePackage env
  match pre.1 with
  | .error e => (.error e, pre.2)
  | .ok _ =>
    match p.Buildpack.IncludeFiles with
    | .error e => (.error e, pre.2)
    | .ok includedFiles =>
      let cached := p.cacheDependencies
      match cached.1 with
      | .error e => (.error e, pre.2 ++ cached.2)
      | .ok dependencyFiles =>
        let arch := p.createArchive env (includedFiles ++ dependencyFiles)
        (arch.1, pre.2 ++ cached.2 ++ arch.2)

/-- The names of the tar entries recorded in a trace, in order. -/
def entryNames (evs : List Event) : List Str :=
  evs.filterMap fun ev =>
    match ev with
    | .addedEntry h => some h.Name
    | _ => none

/-- The archive-open events recorded in a trace. -/
def openEvents (evs : List Event) : List Event :=
  evs.filter fun ev =>
    match ev with
    | .openedArchive _ _ _ => true
    | _ => false

/-! ## Lemmas about the string primitives -/

theorem splitChar_ne_nil (c : Char) (s : Str) : splitChar c s ≠ [] := by
  induction s with
  | nil => simp [splitChar]
  | cons x xs ih =>
    simp only [splitChar]
    cases h : splitChar c xs with
    | nil => simp
    | cons s0 ss0 => by_cases hx : x = c <;> simp [hx]

theorem splitChar_cons_self (c : Char) (xs : Str) :
    splitChar c (c :: xs) = [] :: splitChar c xs := by
  simp only [splitChar]
  cases h : splitChar c xs with
  | nil => exact absurd h (splitChar_ne_nil c xs)
  | cons s0 ss0 => simp

theorem splitChar_cons_ne (hx : x ≠ c) (xs : Str) :
    splitChar c (x :: xs) =
      (x :: (splitChar c xs).headI) :: (splitChar c xs).tail := by
  simp only [splitChar]
  cases h : splitChar c xs with
  | nil => exact absurd h (splitChar_ne_nil c xs)
  | cons s0 ss0 => simp [hx]

theorem splitChar_append (c : Char) (xs ys : Str) :
    splitChar c (xs ++ c :: ys) = splitChar c xs ++ splitChar c ys := by
  induction xs with
  | nil =>
    rw [List.nil_append, splitChar_cons_self]
    rfl
  | cons x xs ih =>
    by_cases hx : x = c
    · subst hx
      rw [List.cons_append, splitChar_cons_self, splitChar_cons_self, ih, List.cons_append]
    · rw [List.cons_append, splitChar_cons_ne hx, splitChar_cons_ne hx, ih]
      cases h : splitChar c xs with
      | nil => exact absurd h (splitChar_ne_nil c xs)
      | cons s0 ss0 => simp

theorem splitChar_of_not_mem {c : Char} {s : Str} (h : c ∉ s) : splitChar c s = [s] := by
  induction s with
  | nil => rfl
  | cons x xs ih =>
    have hx : x ≠ c := fun he => h (he ▸ List.mem_cons_self x xs)
    have hxs : c ∉ xs := fun hm => h (List.mem_cons_of_mem x hm)
    rw [splitChar_cons_ne hx, ih hxs]
    rfl

theorem not_mem_of_mem_splitChar {c : Char} {t : Str} :
    ∀ {s : Str}, s ∈ splitChar c t → c ∉ s := by
  induction t with
  | nil =>
    intro s hs
    simp [splitChar] at hs
    simp [hs]
  | cons x xs ih =>
    intro s hs
    cases h : splitChar c xs with
    | nil => exact absurd h (splitChar_ne_nil c xs)
    | cons s0 ss0 =>
      by_cases hx : x = c
      · subst hx
        rw [splitChar_cons_self, h] at hs
        rcases List.mem_cons.mp hs with hs | hs
        · simp [hs]
        · exact ih (h ▸ hs)
      · rw [splitChar_cons_ne hx, h] at hs
        rcases List.mem_cons.mp hs with hs | hs
        · subst hs
          intro hc
          rcases List.mem_cons.mp hc with hc | hc
          · exact hx hc.symm
          · exact ih (by rw [h]; exact List.mem_cons_self _ _) hc
        · exact ih (h ▸ List.mem_cons_of_mem s0 hs)

theorem mem_of_mem_splitChar {c : Char} {t : Str} :
    ∀ {s : Str}, s ∈ splitChar c t → ∀ {x : Char}, x ∈ s → x ∈ t := by
  induction t with
  | nil =>
    intro s hs x hx
    simp [splitChar] at hs
    subst hs
    cases hx
  | cons y ys ih =>
    intro s hs x hx
    cases h : splitChar c ys with
    | nil => exact absurd h (splitChar_ne_nil c ys)
    | cons s0 ss0 =>
      by_cases hy : y = c
      · subst hy
        rw [splitChar_cons_self, h] at hs
        rcases List.mem_cons.mp hs with hs | hs
        · subst hs; cases hx
        · exact List.mem_cons_of_mem y (ih (h ▸ hs) hx)
      · rw [splitChar_cons_ne hy, h] at hs
        rcases List.mem_cons.mp hs with hs | hs
        · subst hs
          rcases List.mem_cons.mp hx with hx | hx
          · exact hx ▸ List.mem_cons_self _ _
          · exact List.mem_cons_of_mem y (ih (by rw [h]; exact List.mem_cons_self _ _) hx)
        · exact List.mem_cons_of_mem y (ih (h ▸ List.mem_cons_of_mem s0 hs) hx)

theorem joinSep_cons_cons (c x : Char) (s : Str) (ss : List Str) :
    joinSep c ((x :: s) :: ss) = x :: joinSep c (s :: ss) := by
  cases ss <;> simp [joinSep]

theorem joinSep_nil_cons (c : Char) (s : Str) (ss : List Str) :
    joinSep c ([] :: s :: ss) = c :: joinSep c (s :: ss) := rfl

theorem joinSep_splitChar (c : Char) (s : Str) : joinSep c (splitChar c s) = s := by
  induction s with
  | nil => rfl
  | cons x xs ih =>
    cases h : splitChar c xs with
    | nil => exact absurd h (splitChar_ne_nil c xs)
    | cons s0 ss0 =>
      by_cases hx : x = c
      · subst hx
        rw [splitChar_cons_self, h, joinSep_nil_cons, ← h, ih]
      · rw [splitChar_cons_ne hx, h]
        simp only [List.headI, List.tail]
        rw [joinSep_cons_cons, ← h, ih]

theorem splitChar_joinSep {c : Char} :
    ∀ {ss : List Str}, (∀ s ∈ ss, c ∉ s) → ss ≠ [] →
      splitChar c (joinSep c ss) = ss := by
  intro ss
  induction ss with
  | nil => intro _ h; exact absurd rfl h
  | cons s0 rest ih =>
    intro h _
    cases rest with
    | nil => exact splitChar_of_not_mem (h s0 (List.mem_cons_self _ _))
    | cons s1 rest1 =>
      show splitChar c (s0 ++ c :: joinSep c (s1 :: rest1)) = _
      rw [splitChar_append, splitChar_of_not_mem (h s0 (List.mem_cons_self _ _)),
        ih (fun s hs => h s (List.mem_cons_of_mem s0 hs)) (by simp)]
      rfl

theorem joinSep_append (c : Char) :
    ∀ (A B : List Str), A ≠ [] → B ≠ [] →
      joinSep c (A ++ B) = joinSep c A ++ c :: joinSep c B := by
  intro A
  induction A with
  | nil => intro B h _; exact absurd rfl h
  | cons a as ih =>
    intro B _ hB
    cases as with
    | nil =>
      cases B with
      | nil => exact absurd rfl hB
      | cons b bs => simp [joinSep]
    | cons a2 as2 =>
      show joinSep c (a :: (a2 :: as2) ++ B) = _
      have : (a2 :: as2) ++ B = a2 :: (as2 ++ B) := rfl
      calc joinSep c (a :: ((a2 :: as2) ++ B))
          = a ++ c :: joinSep c ((a2 :: as2) ++ B) := by
            rw [this]
            cases h2 : as2 ++ B <;> simp [joinSep]
        _ = a ++ c :: (joinSep c (a2 :: as2) ++ c :: joinSep c B) := by
            rw [ih B (by simp) hB]
        _ = joinSep c (a :: a2 :: as2) ++ c :: joinSep c B := by
            simp [joinSep]

theorem joinSep_head? {s : Str} (c : Char) (ss : List Str) (h : s ≠ []) :
    (joinSep c (s :: ss)).head? = s.head? := by
  cases ss with
  | nil => rfl
  | cons s1 rest =>
    show (s ++ c :: joinSep c (s1 :: rest)).head? = s.head?
    cases s with
    | nil => exact absurd rfl h
    | cons x xs => rfl

theorem joinSep_ne_nil {s : Str} (c : Char) (ss : List Str) (h : s ≠ []) :
    joinSep c (s :: ss) ≠ [] := by
  cases ss with
  | nil => exact h
  | cons s1 rest =>
    show s ++ c :: joinSep c (s1 :: rest) ≠ []
    cases s with
    | nil => simp
    | cons x xs => simp

theorem replaceFirst_of_not_contains {old s : Str} (new : Str)
    (h : containsSub old s = false) : replaceFirst old new s = s := by
  induction s with
  | nil =>
    simp only [containsSub] at h
    simp [replaceFirst, h]
  | cons x xs ih =>
    simp only [containsSub, Bool.or_eq_false_iff] at h
    simp [replaceFirst, h.1, ih h.2]

/-! ## `clean` fixes well-formed paths -/

/-- A path segment `clean` passes through unchanged: non-empty, not `.` or
`..`, and free of the separator. -/
def goodSeg (s : Str) : Prop :=
  s ≠ [] ∧ s ≠ ['.'] ∧ s ≠ ['.', '.'] ∧ '/' ∉ s

/-- An output-directory argument whose slash-separated segments (ignoring a
leading `/`) are all well formed. -/
def goodDir (dir : Str) : Prop :=
  dir ≠ [] ∧ ∀ s ∈ splitChar '/' (if dir.head? = some '/' then dir.tail else dir), goodSeg s

instance (s : Str) : Decidable (goodSeg s) :=
  decidable_of_iff (s ≠ [] ∧ s ≠ ['.'] ∧ s ≠ ['.', '.'] ∧ '/' ∉ s) Iff.rfl

instance (dir : Str) : Decidable (goodDir dir) :=
  decidable_of_iff
    (dir ≠ [] ∧ ∀ s ∈ splitChar '/' (if dir.head? = some '/' then dir.tail else dir), goodSeg s)
    Iff.rfl

theorem cleanStep_good {seg : Str} (r : Bool) (acc : List Str) (h : goodSeg seg) :
    cleanStep r acc seg = acc ++ [seg] := by
  obtain ⟨h1, h2, h3, _⟩ := h
  simp [cleanStep, h1, h2, h3]

theorem foldl_cleanStep_good (r : Bool) :
    ∀ (ss : List Str), (∀ s ∈ ss, goodSeg s) → ∀ (acc : List Str),
      ss.foldl (cleanStep r) acc = acc ++ ss := by
  intro ss
  induction ss with
  | nil => intro _ acc; simp
  | cons s rest ih =>
    intro h acc
    rw [List.foldl_cons, cleanStep_good r acc (h s (List.mem_cons_self _ _)),
      ih (fun x hx => h x (List.mem_cons_of_mem s hx)) (acc ++ [s])]
    simp

theorem clean_of_good {ss : List Str} (h : ∀ s ∈ ss, goodSeg s) (hne : ss ≠ []) :
    clean (joinSep '/' ss) = joinSep '/' ss := by
  obtain ⟨s0, rest, rfl⟩ : ∃ s0 rest, ss = s0 :: rest := by
    cases ss with
    | nil => exact absurd rfl hne
    | cons a b => exact ⟨a, b, rfl⟩
  have hs0 : goodSeg s0 := h s0 (List.mem_cons_self _ _)
  have hnos : ∀ s ∈ s0 :: rest, '/' ∉ s := fun s hs => (h s hs).2.2.2
  cases hj : joinSep '/' (s0 :: rest) with
  | nil => exact absurd hj (joinSep_ne_nil '/' rest hs0.1)
  | cons c0 s' =>
    have hc0 : c0 ≠ '/' := by
      have : (joinSep '/' (s0 :: rest)).head? = s0.head? := joinSep_head? '/' rest hs0.1
      rw [hj] at this
      intro he
      apply hs0.2.2.2
      have : s0.head? = some c0 := this.symm
      subst he
      exact List.mem_of_mem_head? (by rw [this]; rfl)
    rw [clean]
    rw [← hj, splitChar_joinSep hnos (by simp),
      foldl_cleanStep_good _ _ h, List.nil_append]
    simp [hc0, hj]

theorem clean_of_good_rooted {ss : List Str} (h : ∀ s ∈ ss, goodSeg s) :
    clean ('/' :: joinSep '/' ss) = '/' :: joinSep '/' ss := by
  cases ss with
  | nil => decide
  | cons s0 rest =>
    have hnos : ∀ s ∈ s0 :: rest, '/' ∉ s := fun s hs => (h s hs).2.2.2
    rw [clean]
    rw [splitChar_cons_self, splitChar_joinSep hnos (by simp)]
    show (if ('/' : Char) = '/' then _ else _) = _
    rw [if_pos rfl]
    have hdec : (decide (('/' : Char) = '/')) = true := by decide
    have h0 : cleanStep true [] [] = [] := by simp [cleanStep]
    rw [hdec, List.foldl_cons, h0, foldl_cleanStep_good _ _ h, List.nil_append]

/-- Prepending a well-formed directory to well-formed segments yields a path
`clean` leaves unchanged. -/
theorem clean_prepend_good {dir : Str} {ss : List Str} (hdir : goodDir dir)
    (hss : ∀ s ∈ ss, goodSeg s) (hne : ss ≠ []) :
    clean (joinSep '/' (dir :: ss)) = joinSep '/' (dir :: ss) := by
  obtain ⟨s0, rest, rfl⟩ : ∃ s0 rest, ss = s0 :: rest := by
    cases ss with
    | nil => exact absurd rfl hne
    | cons a b => exact ⟨a, b, rfl⟩
  obtain ⟨hdne, hdsegs⟩ := hdir
  obtain ⟨c0, dtail, rfl⟩ : ∃ c0 dtail, dir = c0 :: dtail := by
    cases dir with
    | nil => exact absurd rfl hdne
    | cons a b => exact ⟨a, b, rfl⟩
  have hjoin : joinSep '/' ((c0 :: dtail) :: s0 :: rest) =
      (c0 :: dtail) ++ '/' :: joinSep '/' (s0 :: rest) := rfl
  by_cases hc0 : c0 = '/'
  · subst hc0
    rw [if_pos (show ('/' :: dtail).head? = some '/' from rfl), List.tail_cons] at hdsegs
    have hall : ∀ s ∈ splitChar '/' dtail ++ s0 :: rest, goodSeg s := by
      intro s hs
      rcases List.mem_append.mp hs with hs | hs
      · exact hdsegs s hs
      · exact hss s hs
    have hexp : joinSep '/' (('/' :: dtail) :: s0 :: rest) =
        '/' :: joinSep '/' (splitChar '/' dtail ++ s0 :: rest) := by
      rw [hjoin, joinSep_append '/' (splitChar '/' dtail) (s0 :: rest)
        (splitChar_ne_nil '/' dtail) (by simp), joinSep_splitChar]
      rfl
    rw [hexp, clean_of_good_rooted hall]
  · rw [if_neg (by simp [hc0] : ¬ ((c0 :: dtail).head? = some '/'))] at hdsegs
    have hall : ∀ s ∈ splitChar '/' (c0 :: dtail) ++ s0 :: rest, goodSeg s := by
      intro s hs
      rcases List.mem_append.mp hs with hs | hs
      · exact hdsegs s hs
      · exact hss s hs
    have hexp : joinSep '/' ((c0 :: dtail) :: s0 :: rest) =
        joinSep '/' (splitChar '/' (c0 :: dtail) ++ s0 :: rest) := by
      rw [hjoin, joinSep_append '/' (splitChar '/' (c0 :: dtail)) (s0 :: rest)
        (splitChar_ne_nil '/' _) (by simp), joinSep_splitChar]
    rw [hexp, clean_of_good hall (by simp [splitChar_ne_nil])]

/-- `filepath.Join` of a well-formed directory and well-formed segments is the
naive slash-join. -/
theorem filepathJoin_good {dir : Str} {ss : List Str} (hdir : goodDir dir)
    (hss : ∀ s ∈ ss, goodSeg s) (hne : ss ≠ []) :
    filepathJoin (dir :: ss) = dir ++ '/' :: joinSep '/' ss := by
  obtain ⟨s0, rest, rfl⟩ : ∃ s0 rest, ss = s0 :: rest := by
    cases ss with
    | nil => exact absurd rfl hne
    | cons a b => exact ⟨a, b, rfl⟩
  have hstep : filepathJoin (dir :: s0 :: rest) = clean (joinSep '/' (dir :: s0 :: rest)) := by
    simp only [filepathJoin]
    rw [if_neg hdir.1]
  rw [hstep, clean_prepend_good hdir hss hne]
  rfl

/-! ## Concrete fixtures for scenarios and counterexamples -/

/-- The scenario instant 2024-01-02T03:04:05. -/
def dt2024 : DTime := ⟨2024, 1, 2, 3, 4, 5⟩

/-- A second, distinct instant. -/
def dt2025 : DTime := ⟨2025, 6, 7, 8, 9, 10⟩

/-- A minimal buildpack with the given id and version, no included files, no
dependencies and no pre-package command. -/
def bpOf (id version : String) : Buildpack :=
  { Info := { ID := id.data, Version := version.data }, Root := "/bp".data,
    IncludeFiles := .ok [], Dependencies := .ok [], PrePackage := none }

/-- A cache layer with empty data, for fixtures that never touch it. -/
def cacheLayer0 : CacheLayer := { Root := [], Artifact := .ok [], Metadata := fun _ => [] }

/-- A packager over `bpOf id version` with an inert cache. -/
def pkgOf (id version : String) : Packager :=
  { Buildpack := bpOf id version, Cache := { DownloadLayer := fun _ => cacheLayer0 } }

/-- An environment with the given CLI arguments and time, an empty file
system and an always-succeeding external command. -/
def envOf (args : List String) (t : DTime) : Env :=
  { Args := args.map String.data, now := t, fs := fun _ => none,
    cmdExec := fun _ _ => .ok () }

/-! ## C1: the destination path formula -/

theorem tgzName_goodSeg {info : BuildpackInfo} (hid : '/' ∉ info.ID)
    (hver : '/' ∉ info.Version) : goodSeg (tgzName info) := by
  refine ⟨?_, ?_, ?_, ?_⟩
  · simp [tgzName]
  · intro h
    have : (tgzName info).length = 1 := by rw [h]; rfl
    simp [tgzName] at this
    omega
  · intro h
    have : (tgzName info).length = 2 := by rw [h]; rfl
    simp [tgzName] at this
    omega
  · simp [tgzName, hid, hver]

/-- **C1** (amended): for a well-formed output directory, an id whose
dot-separated segments are non-empty and slash-free, a well-formed version,
and a file name `<id>-<version>.tgz` not containing `SNAPSHOT`, the archive
path is exactly
`<dir>/<dot-segs of id as directories>/<id>/<version>/<id>-<version>.tgz`. -/
theorem archivePath_formula (p : Packager) (env : Env) (dir : Str)
    (hargs : env.Args.get? 1 = some dir) (hdir : goodDir dir)
    (hid : ∀ s ∈ splitChar '.' p.Buildpack.Info.ID, s ≠ [])
    (hidslash : '/' ∉ p.Buildpack.Info.ID)
    (hver : p.Buildpack.Info.Version ≠ [] ∧ p.Buildpack.Info.Version ≠ ['.'] ∧
      p.Buildpack.Info.Version ≠ ['.', '.'] ∧ '/' ∉ p.Buildpack.Info.Version)
    (hsnap : containsSub "SNAPSHOT".data (tgzName p.Buildpack.Info) = false) :
    p.archivePath env =
      .ok (dir ++ '/' :: (joinSep '/' (splitChar '.' p.Buildpack.Info.ID) ++
        '/' :: (p.Buildpack.Info.ID ++
          '/' :: (p.Buildpack.Info.Version ++ '/' :: tgzName p.Buildpack.Info)))) := by
  have hidne : p.Buildpack.Info.ID ≠ [] := by
    intro h
    exact hid [] (by rw [h]; exact List.mem_cons_self _ _) rfl
  have hiddot : p.Buildpack.Info.ID ≠ ['.'] := by
    intro h
    exact hid [] (by rw [h]; decide) rfl
  have hidddot : p.Buildpack.Info.ID ≠ ['.', '.'] := by
    intro h
    exact hid [] (by rw [h]; decide) rfl
  have hsegsgood : ∀ s ∈ splitChar '.' p.Buildpack.Info.ID, goodSeg s := by
    intro s hs
    have hnd : '.' ∉ s := not_mem_of_mem_splitChar hs
    refine ⟨hid s hs, ?_, ?_, ?_⟩
    · intro h; exact hnd (by rw [h]; exact List.mem_cons_self _ _)
    · intro h; exact hnd (by rw [h]; exact List.mem_cons_self _ _)
    · intro h; exact hidslash (mem_of_mem_splitChar hs h)
  have hfgood : goodSeg (tgzName p.Buildpack.Info) := tgzName_goodSeg hidslash hver.2.2.2
  have hallgood : ∀ s ∈ splitChar '.' p.Buildpack.Info.ID ++
      [p.Buildpack.Info.ID, p.Buildpack.Info.Version, tgzName p.Buildpack.Info], goodSeg s := by
    intro s hs
    rcases List.mem_append.mp hs with hs | hs
    · exact hsegsgood s hs
    · rcases List.mem_cons.mp hs with hs | hs
      · exact hs ▸ ⟨hidne, hiddot, hidddot, hidslash⟩
      · rcases List.mem_cons.mp hs with hs | hs
        · exact hs ▸ hver
        · rcases List.mem_cons.mp hs with hs | hs
          · exact hs ▸ hfgood
          · cases hs
  simp only [Packager.archivePath, osArgs, hargs]
  rw [replaceFirst_of_not_contains _ hsnap]
  have hlist : [dir] ++ splitChar '.' p.Buildpack.Info.ID ++
      [p.Buildpack.Info.ID, p.Buildpack.Info.Version, tgzName p.Buildpack.Info] =
      dir :: (splitChar '.' p.Buildpack.Info.ID ++
        [p.Buildpack.Info.ID, p.Buildpack.Info.Version, tgzName p.Buildpack.Info]) := by
    simp
  rw [hlist, filepathJoin_good hdir hallgood (by
    intro h
    exact splitChar_ne_nil '.' p.Buildpack.Info.ID (List.append_eq_nil.mp h).1)]
  rw [joinSep_append '/' _ _ (splitChar_ne_nil '.' p.Buildpack.Info.ID) (by simp)]
  rfl

/-- Witness for `archivePath_formula`: the spec's scenario
(id `com.example.buildpack`, version `1.2.3`, output dir `/out`). -/
theorem archivePath_formula_witness :
    (envOf ["packager", "/out"] dt2024).Args.get? 1 = some "/out".data ∧
    goodDir "/out".data ∧
    (pkgOf "com.example.buildpack" "1.2.3").archivePath (envOf ["packager", "/out"] dt2024) =
      .ok "/out/com/example/buildpack/com.example.buildpack/1.2.3/com.example.buildpack-1.2.3.tgz".data := by
  refine ⟨by decide, by decide, ?_⟩
  have h := archivePath_formula (pkgOf "com.example.buildpack" "1.2.3")
    (envOf ["packager", "/out"] dt2024) ("/out".data)
    (by decide) (by decide) (by decide) (by decide) (by decide) (by decide)
  exact h.trans (by decide)

/-- **C1** (counterexample): for version `SNAPSHOT` the produced path is not
`<outputDir>/<id segs>/<id>/<version>/<id>-<version>.tgz` (the file name gets
the timestamp substitution), so the claim does not hold for every version. -/
theorem archivePath_claim1_counterexample :
    (pkgOf "a" "SNAPSHOT").archivePath (envOf ["packager", "/out"] dt2024) ≠
      .ok "/out/a/a/SNAPSHOT/a-SNAPSHOT.tgz".data := by
  decide

/-! ## C2: SNAPSHOT substitution -/

/-- **C2** (counterexample): with id `SNAPSHOT` and version `1.2.3.SNAPSHOT`
at 2024-01-02T03:04:05 the code replaces the first `SNAPSHOT` of the file
name `<id>-<version>.tgz` — the one inside the *id* — and leaves the
version's occurrence in place; the path predicted by the claim (first
occurrence *of the version string* replaced, whether or not the version
directory segment is also rewritten) is not produced. -/
theorem archivePath_claim2_counterexample :
    (pkgOf "SNAPSHOT" "1.2.3.SNAPSHOT").archivePath (envOf ["packager", "/out"] dt2024) =
      .ok "/out/SNAPSHOT/SNAPSHOT/1.2.3.SNAPSHOT/20240102.030405-1-1.2.3.SNAPSHOT.tgz".data ∧
    (pkgOf "SNAPSHOT" "1.2.3.SNAPSHOT").archivePath (envOf ["packager", "/out"] dt2024) ≠
      .ok "/out/SNAPSHOT/SNAPSHOT/1.2.3.SNAPSHOT/SNAPSHOT-1.2.3.20240102.030405-1.tgz".data ∧
    (pkgOf "SNAPSHOT" "1.2.3.SNAPSHOT").archivePath (envOf ["packager", "/out"] dt2024) ≠
      .ok "/out/SNAPSHOT/SNAPSHOT/1.2.3.20240102.030405-1/SNAPSHOT-1.2.3.20240102.030405-1.tgz".data := by
  refine ⟨by decide, by decide, by decide⟩

/-- **C2** (amended): the substitution applies to the archive *file name*
`<id>-<version>.tgz`, not to the version directory segment, and it replaces
exactly the first `SNAPSHOT` occurrence of that file name (which lies inside
the id when the id contains `SNAPSHOT`); later occurrences are untouched.
The three conjuncts show: the spec scenario (file name substituted, version
directory keeps `SNAPSHOT`); only the first of two occurrences in a version
replaced; an id occurrence taking precedence over the version's. -/
theorem archivePath_snapshot_filename_only :
    (pkgOf "com.example.buildpack" "1.2.3.SNAPSHOT").archivePath
        (envOf ["packager", "/out"] dt2024) =
      .ok ("/out/com/example/buildpack/com.example.buildpack/1.2.3.SNAPSHOT/" ++
        "com.example.buildpack-1.2.3.20240102.030405-1.tgz").data ∧
    (pkgOf "a" "1.SNAPSHOT.SNAPSHOT").archivePath (envOf ["packager", "/out"] dt2024) =
      .ok "/out/a/a/1.SNAPSHOT.SNAPSHOT/a-1.20240102.030405-1.SNAPSHOT.tgz".data ∧
    (pkgOf "SNAPSHOT" "1").archivePath (envOf ["packager", "/out"] dt2024) =
      .ok "/out/SNAPSHOT/SNAPSHOT/1/20240102.030405-1-1.tgz".data := by
  refine ⟨by decide, by decide, by decide⟩

/-! ## C4: determinism for SNAPSHOT-free inputs -/

/-- **C4** (counterexample): the claim only excludes `SNAPSHOT` from the
*version*; an id containing `SNAPSHOT` still makes the path depend on the
current time. -/
theorem archivePath_claim4_counterexample :
    containsSub "SNAPSHOT".data "1".data = false ∧
    (pkgOf "SNAPSHOT" "1").archivePath (envOf ["packager", "/out"] dt2024) ≠
      (pkgOf "SNAPSHOT" "1").archivePath (envOf ["packager", "/out"] dt2025) := by
  refine ⟨by decide, by decide⟩

/-- **C4** (amended): the Path Builder is deterministic — independent of the
current time — whenever the file name `<id>-<version>.tgz` contains no
`SNAPSHOT` (in particular whenever neither the id nor the version contains
it), for any two environments with the same CLI arguments. -/
theorem archivePath_deterministic (p : Packager) (env1 env2 : Env)
    (hargs : env1.Args = env2.Args)
    (hsnap : containsSub "SNAPSHOT".data (tgzName p.Buildpack.Info) = false) :
    p.archivePath env1 = p.archivePath env2 := by
  unfold Packager.archivePath
  rw [hargs]
  cases osArgs env2.Args 1 with
  | error e => rfl
  | ok dir =>
    simp only
    rw [replaceFirst_of_not_contains _ hsnap, replaceFirst_of_not_contains _ hsnap]

/-- Witness for `archivePath_deterministic`: a released version at two
different instants. -/
theorem archivePath_deterministic_witness :
    (envOf ["packager", "/out"] dt2024).Args = (envOf ["packager", "/out"] dt2025).Args ∧
    containsSub "SNAPSHOT".data (tgzName (pkgOf "a" "1.2.3").Buildpack.Info) = false ∧
    (pkgOf "a" "1.2.3").archivePath (envOf ["packager", "/out"] dt2024) =
      (pkgOf "a" "1.2.3").archivePath (envOf ["packager", "/out"] dt2025) :=
  ⟨by decide, by decide,
    archivePath_deterministic (pkgOf "a" "1.2.3") (envOf ["packager", "/out"] dt2024)
      (envOf ["packager", "/out"] dt2025) (by decide) (by decide)⟩

/-! ## Trace helper lemmas -/

theorem openEvents_ran (argv : List Str) (cwd : Str) (evs : List Event) :
    openEvents (.ranPrePackage argv cwd :: evs) = openEvents evs := rfl

theorem openEvents_dl (d : Dependency) (evs : List Event) :
    openEvents (.downloadedLayer d :: evs) = openEvents evs := rfl

theorem openEvents_added (h : TarHeader) (evs : List Event) :
    openEvents (.addedEntry h :: evs) = openEvents evs := rfl

theorem openEvents_append (a b : List Event) :
    openEvents (a ++ b) = openEvents a ++ openEvents b := by
  simp [openEvents]

theorem openEvents_map_dl (D : List Dependency) :
    openEvents (D.map Event.downloadedLayer) = [] := by
  induction D with
  | nil => rfl
  | cons d ds ih => rw [List.map_cons, openEvents_dl, ih]

theorem entryNames_ran (argv : List Str) (cwd : Str) (evs : List Event) :
    entryNames (.ranPrePackage argv cwd :: evs) = entryNames evs := rfl

theorem entryNames_dl (d : Dependency) (evs : List Event) :
    entryNames (.downloadedLayer d :: evs) = entryNames evs := rfl

theorem entryNames_opened (path : Str) (flags perm : Nat) (evs : List Event) :
    entryNames (.openedArchive path flags perm :: evs) = entryNames evs := rfl

theorem entryNames_added (h : TarHeader) (evs : List Event) :
    entryNames (.addedEntry h :: evs) = h.Name :: entryNames evs := rfl

theorem entryNames_append (a b : List Event) :
    entryNames (a ++ b) = entryNames a ++ entryNames b := by
  simp [entryNames]

theorem entryNames_map_dl (D : List Dependency) :
    entryNames (D.map Event.downloadedLayer) = [] := by
  induction D with
  | nil => rfl
  | cons d ds ih => rw [List.map_cons, entryNames_dl, ih]

/-- The `[artifact₁, metadata₁, artifact₂, metadata₂, …]` list the Dependency
Resolver is specified to return, given the relativized paths per dependency. -/
def depPairs (artRel metaRel : Dependency → Str) : List Dependency → List Str
  | [] => []
  | d :: ds => artRel d :: metaRel d :: depPairs artRel metaRel ds

/-- When every dependency resolves, `cacheDeps` returns exactly the flat
artifact/metadata pair list and one download event per dependency, in
declaration order. -/
theorem cacheDeps_ok (cache : Cache) (root : Str) :
    ∀ (D : List Dependency) (aAbs artRel metaRel : Dependency → Str),
      (∀ d ∈ D, (cache.DownloadLayer d).Artifact = .ok (aAbs d) ∧
        rel root (aAbs d) = .ok (artRel d) ∧
        rel root ((cache.DownloadLayer d).Metadata (cache.DownloadLayer d).Root) =
          .ok (metaRel d)) →
      cacheDeps cache root D =
        (.ok (depPairs artRel metaRel D), D.map Event.downloadedLayer) := by
  intro D
  induction D with
  | nil => intro _ _ _ _; rfl
  | cons d ds ih =>
    intro aAbs artRel metaRel h
    obtain ⟨h1, h2, h3⟩ := h d (List.mem_cons_self _ _)
    have hrest := ih aAbs artRel metaRel (fun x hx => h x (List.mem_cons_of_mem d hx))
    simp [cacheDeps, h1, h2, h3, hrest, depPairs]

/-- When every file to be added exists, `addFiles` succeeds and writes one
tar entry per file, in order, carrying the stat data of the source. -/
theorem addFiles_ok (p : Packager) (env : Env) :
    ∀ (files : List Str) (finfo : Str → FileInfo),
      (∀ f ∈ files, env.fs (filepathJoin [p.Buildpack.Root, f]) = some (finfo f)) →
      addFiles p env files = (.ok (), files.map fun f =>
        Event.addedEntry (TarHeader.mk f (finfo f).content.length (finfo f).mode
          (finfo f).modTime (finfo f).content)) := by
  intro files
  induction files with
  | nil => intro _ _; rfl
  | cons f fs ih =>
    intro finfo h
    have h1 := h f (List.mem_cons_self _ _)
    have hrest := ih finfo (fun x hx => h x (List.mem_cons_of_mem f hx))
    simp [addFiles, Packager.addFile, h1, hrest]

theorem entryNames_map_added (g : Str → TarHeader) (hg : ∀ f, (g f).Name = f) :
    ∀ (files : List Str),
      entryNames (files.map fun f => Event.addedEntry (g f)) = files := by
  intro files
  induction files with
  | nil => rfl
  | cons f fs ih => rw [List.map_cons, entryNames_added, hg, ih]

/-! ## Fixtures for run-level claims -/

/-- The stat data every fixture file system returns. -/
def fi0 : FileInfo := { content := [104, 105], mode := 420, modTime := 1700000000 }

/-- A declared dependency. -/
def dep1 : Dependency := { ID := "org.example.dep".data, Version := "2.0".data }

/-- A cache layer whose artifact lives under the buildpack root and whose
metadata sidecar lives outside it. -/
def layer1 : CacheLayer :=
  { Root := "/cache/l1".data, Artifact := .ok "/bp/deps/d1/art.tgz".data,
    Metadata := fun r => r ++ ".toml".data }

/-- A buildpack with one included file and one dependency, no hook. -/
def bp3 : Buildpack :=
  { Info := { ID := "a".data, Version := "1".data }, Root := "/bp".data,
    IncludeFiles := .ok ["a.txt".data], Dependencies := .ok [dep1], PrePackage := none }

/-- Packager over `bp3`. -/
def pkg3 : Packager := { Buildpack := bp3, Cache := { DownloadLayer := fun _ => layer1 } }

/-- Environment with an output directory, a total file system and a
succeeding command runner. -/
def env3 : Env :=
  { Args := ["packager".data, "/out".data], now := dt2024, fs := fun _ => some fi0,
    cmdExec := fun _ _ => .ok () }

/-- Like `bp3` but declaring a pre-package command (with an embedded space). -/
def bp5 : Buildpack :=
  { Info := { ID := "a".data, Version := "1".data }, Root := "/bp".data,
    IncludeFiles := .ok ["a.txt".data], Dependencies := .ok [dep1],
    PrePackage := some "./pre package.sh".data }

/-- Packager over `bp5`. -/
def pkg5 : Packager := { Buildpack := bp5, Cache := { DownloadLayer := fun _ => layer1 } }

/-- Environment whose external commands all fail. -/
def env5 : Env :=
  { Args := ["packager".data, "/out".data], now := dt2024, fs := fun _ => some fi0,
    cmdExec := fun _ _ => .error (.cmdFailed 1) }

/-- Like `bp5` but with a hook that will succeed. -/
def bp9 : Buildpack :=
  { Info := { ID := "a".data, Version := "1".data }, Root := "/bp".data,
    IncludeFiles := .ok ["a.txt".data], Dependencies := .ok [dep1],
    PrePackage := some "./hook".data }

/-- Packager over `bp9`. -/
def pkg9 : Packager := { Buildpack := bp9, Cache := { DownloadLayer := fun _ => layer1 } }

/-- Environment missing the output-directory argument. -/
def env9 : Env :=
  { Args := ["packager".data], now := dt2024, fs := fun _ => some fi0,
    cmdExec := fun _ _ => .ok () }

/-! ## C7: the pre-package stage contract -/

/-- **C7**: with no declared command the pre-package stage succeeds without
running anything (empty trace); a declared command `pp` runs with argv
`[pp]` and working directory the buildpack root, and the stage's result is
exactly the command's result. -/
theorem prePackage_contract (p : Packager) (env : Env) :
    p.prePackage env =
      match p.Buildpack.PrePackage with
      | none => (.ok (), [])
      | some pp => (env.cmdExec [pp] p.Buildpack.Root,
          [.ranPrePackage [pp] p.Buildpack.Root]) := by
  cases h : p.Buildpack.PrePackage <;> simp [Packager.prePackage, execCommand, h]

/-! ## C10: the command string is a single argv element -/

/-- **C10**: the declared command string becomes one argv element — the argv
is `[pp]`, whatever characters (including spaces) `pp` contains — and that
is exactly what the recorded execution carries, with no extra arguments. -/
theorem prePackage_single_argv (p : Packager) (env : Env) (pp : Str) :
    execCommand pp [] = [pp] ∧
    (Packager.prePackage
        { p with Buildpack := { p.Buildpack with PrePackage := some pp } } env).2 =
      [.ranPrePackage [pp] p.Buildpack.Root] :=
  ⟨rfl, rfl⟩

/-! ## C5: a failing hook prevents archive creation -/

/-- **C5**: when the declared pre-package command fails, `Create` surfaces
that error and the trace contains no archive-open event and no tar entry:
the destination file is never created or opened. -/
theorem create_prePackage_failure_no_archive (p : Packager) (env : Env) (pp : Str)
    (e : PError) (hpp : p.Buildpack.PrePackage = some pp)
    (hcmd : env.cmdExec [pp] p.Buildpack.Root = .error e) :
    (p.Create env).1 = .error e ∧
    openEvents (p.Create env).2 = [] ∧
    entryNames (p.Create env).2 = [] := by
  have hpre : p.prePackage env =
      (.error e, [.ranPrePackage [pp] p.Buildpack.Root]) := by
    simp [Packager.prePackage, hpp, execCommand, hcmd]
  have hc : p.Create env = (.error e, [.ranPrePackage [pp] p.Buildpack.Root]) := by
    simp [Packager.Create, hpre]
  rw [hc]
  exact ⟨rfl, rfl, rfl⟩

/-- Witness for `create_prePackage_failure_no_archive` on the concrete
fixture whose command runner fails. -/
theorem create_prePackage_failure_no_archive_witness :
    pkg5.Buildpack.PrePackage = some "./pre package.sh".data ∧
    env5.cmdExec ["./pre package.sh".data] pkg5.Buildpack.Root = .error (.cmdFailed 1) ∧
    ((pkg5.Create env5).1 = .error (.cmdFailed 1) ∧
      openEvents (pkg5.Create env5).2 = [] ∧
      entryNames (pkg5.Create env5).2 = []) :=
  ⟨rfl, rfl,
    create_prePackage_failure_no_archive pkg5 env5 "./pre package.sh".data
      (.cmdFailed 1) rfl rfl⟩

/-! ## C9: the missing-argument check runs last -/

/-- **C9**: when `os.Args` has no output directory, the run still executes
the pre-package hook and downloads every declared dependency layer — all
their side effects happen — and only then fails with the missing-argument
error, never opening an archive. -/
theorem create_missing_output_dir_late_failure (p : Packager) (env : Env) (pp : Str)
    (F : List Str) (D : List Dependency) (aAbs artRel metaRel : Dependency → Str)
    (hargs : env.Args.get? 1 = none)
    (hpp : p.Buildpack.PrePackage = some pp)
    (hcmd : env.cmdExec [pp] p.Buildpack.Root = .ok ())
    (hinc : p.Buildpack.IncludeFiles = .ok F)
    (hdeps : p.Buildpack.Dependencies = .ok D)
    (hlayers : ∀ d ∈ D, (p.Cache.DownloadLayer d).Artifact = .ok (aAbs d) ∧
      rel p.Buildpack.Root (aAbs d) = .ok (artRel d) ∧
      rel p.Buildpack.Root
        ((p.Cache.DownloadLayer d).Metadata (p.Cache.DownloadLayer d).Root) =
        .ok (metaRel d)) :
    (p.Create env).1 = .error (.missingArg 1) ∧
    .ranPrePackage [pp] p.Buildpack.Root ∈ (p.Create env).2 ∧
    (∀ d ∈ D, .downloadedLayer d ∈ (p.Create env).2) ∧
    openEvents (p.Create env).2 = [] := by
  have hpre : p.prePackage env =
      (.ok (), [.ranPrePackage [pp] p.Buildpack.Root]) := by
    simp [Packager.prePackage, hpp, execCommand, hcmd]
  have hcache : p.cacheDependencies =
      (.ok (depPairs artRel metaRel D), D.map Event.downloadedLayer) := by
    rw [Packager.cacheDependencies, hdeps]
    exact cacheDeps_ok p.Cache p.Buildpack.Root D aAbs artRel metaRel hlayers
  have harch : p.archivePath env = .error (.missingArg 1) := by
    unfold Packager.archivePath osArgs
    rw [hargs]
  have hca : p.createArchive env (F ++ depPairs artRel metaRel D) =
      (.error (.missingArg 1), []) := by
    simp [Packager.createArchive, harch]
  have hc : p.Create env = (.error (.missingArg 1),
      [Event.ranPrePackage [pp] p.Buildpack.Root] ++ D.map Event.downloadedLayer ++ []) := by
    simp [Packager.Create, hpre, hinc, hcache, hca]
  rw [hc]
  refine ⟨rfl, by simp, ?_, ?_⟩
  · intro d hd
    rw [List.append_nil]
    exact List.mem_append_right _ (List.mem_map_of_mem Event.downloadedLayer hd)
  · rw [List.append_nil, openEvents_append, openEvents_ran]
    show openEvents [] ++ openEvents (D.map Event.downloadedLayer) = []
    rw [openEvents_map_dl]
    rfl

/-- Witness for `create_missing_output_dir_late_failure` on the fixture with
no output-directory argument. -/
theorem create_missing_output_dir_late_failure_witness :
    env9.Args.get? 1 = none ∧
    ((pkg9.Create env9).1 = .error (.missingArg 1) ∧
      .ranPrePackage ["./hook".data] pkg9.Buildpack.Root ∈ (pkg9.Create env9).2 ∧
      (∀ d ∈ [dep1], .downloadedLayer d ∈ (pkg9.Create env9).2) ∧
      openEvents (pkg9.Create env9).2 = []) :=
  ⟨rfl,
    create_missing_output_dir_late_failure pkg9 env9 "./hook".data ["a.txt".data] [dep1]
      (fun _ => "/bp/deps/d1/art.tgz".data) (fun _ => "deps/d1/art.tgz".data)
      (fun _ => "../cache/l1.toml".data)
      rfl rfl rfl rfl rfl (by decide)⟩

/-! ## C3: the archive's entry list -/

/-- **C3**: on a successful run the archive's tar entries are exactly the
included files followed by the `[artifactᵢ, metadataᵢ]` pair of each declared
dependency, in declaration order. -/
theorem create_entries_order (p : Packager) (env : Env) (dir : Str) (F : List Str)
    (D : List Dependency) (aAbs artRel metaRel : Dependency → Str)
    (finfo : Str → FileInfo)
    (hpre : p.Buildpack.PrePackage = none)
    (hinc : p.Buildpack.IncludeFiles = .ok F)
    (hdeps : p.Buildpack.Dependencies = .ok D)
    (hlayers : ∀ d ∈ D, (p.Cache.DownloadLayer d).Artifact = .ok (aAbs d) ∧
      rel p.Buildpack.Root (aAbs d) = .ok (artRel d) ∧
      rel p.Buildpack.Root
        ((p.Cache.DownloadLayer d).Metadata (p.Cache.DownloadLayer d).Root) =
        .ok (metaRel d))
    (hargs : env.Args.get? 1 = some dir)
    (hfs : ∀ f ∈ F ++ depPairs artRel metaRel D,
      env.fs (filepathJoin [p.Buildpack.Root, f]) = some (finfo f)) :
    (p.Create env).1 = .ok () ∧
    entryNames (p.Create env).2 = F ++ depPairs artRel metaRel D := by
  have hpre' : p.prePackage env = (.ok (), []) := by
    simp [Packager.prePackage, hpre]
  have hcache : p.cacheDependencies =
      (.ok (depPairs artRel metaRel D), D.map Event.downloadedLayer) := by
    rw [Packager.cacheDependencies, hdeps]
    exact cacheDeps_ok p.Cache p.Buildpack.Root D aAbs artRel metaRel hlayers
  obtain ⟨apath, harch⟩ : ∃ apath, p.archivePath env = .ok apath := by
    refine ⟨filepathJoin ([dir] ++ splitChar '.' p.Buildpack.Info.ID ++
      [p.Buildpack.Info.ID, p.Buildpack.Info.Version,
        replaceFirst "SNAPSHOT".data (timeStamp env.now ++ ['-', '1'])
          (tgzName p.Buildpack.Info)]), ?_⟩
    unfold Packager.archivePath osArgs
    rw [hargs]
  have hadd := addFiles_ok p env (F ++ depPairs artRel metaRel D) finfo hfs
  have hca : p.createArchive env (F ++ depPairs artRel metaRel D) =
      (.ok (), .openedArchive apath (oRDWR ||| oCREATE ||| oTRUNC) 0o644 ::
        ((F ++ depPairs artRel metaRel D).map fun f =>
          Event.addedEntry (TarHeader.mk f (finfo f).content.length (finfo f).mode
            (finfo f).modTime (finfo f).content))) := by
    simp [Packager.createArchive, harch, hadd]
  have hc : p.Create env = (.ok (),
      [] ++ D.map Event.downloadedLayer ++
        (.openedArchive apath (oRDWR ||| oCREATE ||| oTRUNC) 0o644 ::
          ((F ++ depPairs artRel metaRel D).map fun f =>
            Event.addedEntry (TarHeader.mk f (finfo f).content.length (finfo f).mode
              (finfo f).modTime (finfo f).content)))) := by
    simp [Packager.Create, hpre', hinc, hcache, hca]
  rw [hc]
  refine ⟨rfl, ?_⟩
  rw [List.nil_append, entryNames_append, entryNames_map_dl, entryNames_opened,
    entryNames_map_added (fun f => TarHeader.mk f (finfo f).content.length (finfo f).mode
      (finfo f).modTime (finfo f).content) (fun _ => rfl)]
  rfl

/-- Witness for `create_entries_order`: one included file and one dependency
whose artifact relativizes below the root and whose metadata relativizes to a
`..`-escaping path; the archive lists them in the specified order. -/
theorem create_entries_order_witness :
    pkg3.Buildpack.IncludeFiles = .ok ["a.txt".data] ∧
    pkg3.Buildpack.Dependencies = .ok [dep1] ∧
    ((pkg3.Create env3).1 = .ok () ∧
      entryNames (pkg3.Create env3).2 =
        ["a.txt".data] ++ depPairs (fun _ => "deps/d1/art.tgz".data)
          (fun _ => "../cache/l1.toml".data) [dep1]) :=
  ⟨rfl, rfl,
    create_entries_order pkg3 env3 "/out".data ["a.txt".data] [dep1]
      (fun _ => "/bp/deps/d1/art.tgz".data) (fun _ => "deps/d1/art.tgz".data)
      (fun _ => "../cache/l1.toml".data) (fun _ => fi0)
      rfl rfl rfl (by decide) rfl (by decide)⟩

/-! ## C8: tar header fields and destination open flags -/

/-- **C8**: each added entry's tar header carries exactly the given relative
path as its name, the source file's byte length as its size, and the source
file's mode and modification time; and the destination archive is opened
with `O_RDWR|O_CREATE|O_TRUNC` (create/truncate semantics) and mode `0644`. -/
theorem addFile_header_and_open_flags (p : Packager) (env : Env) (path : Str)
    (info : FileInfo) (files : List Str) (apath : Str)
    (hfs : env.fs (filepathJoin [p.Buildpack.Root, path]) = some info)
    (harch : p.archivePath env = .ok apath) :
    p.addFile env path = .ok (TarHeader.mk path info.content.length info.mode
      info.modTime info.content) ∧
    (p.createArchive env files).2.head? =
      some (.openedArchive apath (oRDWR ||| oCREATE ||| oTRUNC) 0o644) ∧
    (oRDWR ||| oCREATE ||| oTRUNC) &&& oCREATE ≠ 0 ∧
    (oRDWR ||| oCREATE ||| oTRUNC) &&& oTRUNC ≠ 0 := by
  refine ⟨?_, ?_, by decide, by decide⟩
  · simp [Packager.addFile, hfs]
  · simp [Packager.createArchive, harch]

/-- Witness for `addFile_header_and_open_flags` on the `pkg3` fixture. -/
theorem addFile_header_and_open_flags_witness :
    env3.fs (filepathJoin [pkg3.Buildpack.Root, "a.txt".data]) = some fi0 ∧
    pkg3.archivePath env3 = .ok "/out/a/a/1/a-1.tgz".data ∧
    (pkg3.addFile env3 "a.txt".data = .ok (TarHeader.mk "a.txt".data
        fi0.content.length fi0.mode fi0.modTime fi0.content) ∧
      (pkg3.createArchive env3 ["a.txt".data]).2.head? =
        some (.openedArchive "/out/a/a/1/a-1.tgz".data
          (oRDWR ||| oCREATE ||| oTRUNC) 0o644) ∧
      (oRDWR ||| oCREATE ||| oTRUNC) &&& oCREATE ≠ 0 ∧
      (oRDWR ||| oCREATE ||| oTRUNC) &&& oTRUNC ≠ 0) :=
  ⟨rfl, by decide,
    addFile_header_and_open_flags pkg3 env3 "a.txt".data fi0 ["a.txt".data]
      "/out/a/a/1/a-1.tgz".data rfl (by decide)⟩

/-! ## C6: paths admitted into the archive -/

theorem dropCommon_snd_sub : ∀ (bs ts : List Str), ∀ x ∈ (dropCommon bs ts).2, x ∈ ts := by
  intro bs
  induction bs with
  | nil =>
    intro ts x hx
    simp only [dropCommon] at hx
    exact hx
  | cons b brest ih =>
    intro ts x hx
    cases ts with
    | nil => simp [dropCommon] at hx
    | cons t trest =>
      by_cases hbt : b = t
      · have he : dropCommon (b :: brest) (t :: trest) = dropCommon brest trest := by
          simp [dropCommon, hbt]
        rw [he] at hx
        exact List.mem_cons_of_mem t (ih trest x hx)
      · have he : dropCommon (b :: brest) (t :: trest) = (b :: brest, t :: trest) := by
          simp [dropCommon, hbt]
        rw [he] at hx
        exact hx

theorem mem_relSegs {t s : Str} (h : s ∈ relSegs t) : s ≠ [] ∧ '/' ∉ s := by
  unfold relSegs at h
  by_cases ht : t = ['.']
  · rw [if_pos ht] at h
    cases h
  · rw [if_neg ht] at h
    obtain ⟨hm, hp⟩ := List.mem_filter.mp h
    refine ⟨?_, not_mem_of_mem_splitChar hm⟩
    intro he
    subst he
    simp at hp

/-- **C6** (amended, positive part): a path produced by `filepath.Rel` is
never absolute — whenever `rel` succeeds its result does not start with
`/` (though it may start with `..`). -/
theorem rel_never_absolute (base targ r : Str) (h : rel base targ = .ok r) :
    r.head? ≠ some '/' := by
  simp only [rel] at h
  by_cases h1 : clean base = clean targ
  · rw [if_pos h1] at h
    injection h with h2
    rw [← h2]
    decide
  · rw [if_neg h1] at h
    by_cases h2 : ((clean base).head? = some '/') ≠ ((clean targ).head? = some '/')
    · rw [if_pos h2] at h
      exact Except.noConfusion h
    · rw [if_neg h2] at h
      by_cases h3 : (dropCommon (relSegs (clean base)) (relSegs (clean targ))).1.head? =
          some ['.', '.']
      · rw [if_pos h3] at h
        exact Except.noConfusion h
      · rw [if_neg h3] at h
        by_cases h4 : ((dropCommon (relSegs (clean base)) (relSegs (clean targ))).1.map
            (fun _ => (['.', '.'] : Str)) ++
            (dropCommon (relSegs (clean base)) (relSegs (clean targ))).2) = []
        · rw [if_pos h4] at h
          injection h with h5
          rw [← h5]
          decide
        · rw [if_neg h4] at h
          injection h with h5
          rw [← h5]
          cases hm : (dropCommon (relSegs (clean base)) (relSegs (clean targ))).1 with
          | cons m0 mr =>
            rw [List.map_cons, List.cons_append,
              joinSep_head? '/' _ (by simp : (['.', '.'] : Str) ≠ [])]
            decide
          | nil =>
            rw [List.map_nil, List.nil_append]
            rw [hm, List.map_nil, List.nil_append] at h4
            cases ht : (dropCommon (relSegs (clean base)) (relSegs (clean targ))).2 with
            | nil => exact absurd ht h4
            | cons t0 tr =>
              have ht0 : t0 ∈ relSegs (clean targ) :=
                dropCommon_snd_sub (relSegs (clean base)) (relSegs (clean targ)) t0
                  (by rw [ht]; exact List.mem_cons_self _ _)
              obtain ⟨htne, htsl⟩ := mem_relSegs ht0
              rw [joinSep_head? '/' tr htne]
              intro hc
              exact htsl (List.mem_of_mem_head? (by rw [hc]; rfl))

/-- Witness for `rel_never_absolute`: a target below the base relativizes to
a plain relative path. -/
theorem rel_never_absolute_witness :
    rel "/bp".data "/bp/x".data = .ok "x".data ∧ ("x".data).head? ≠ some '/' :=
  ⟨by decide, rel_never_absolute "/bp".data "/bp/x".data "x".data (by decide)⟩

/-- A buildpack whose included-files list contains an absolute path. -/
def bp6 : Buildpack :=
  { Info := { ID := "a".data, Version := "1".data }, Root := "/bp".data,
    IncludeFiles := .ok ["/etc/x".data], Dependencies := .ok [], PrePackage := none }

/-- Packager over `bp6`. -/
def pkg6 : Packager := { Buildpack := bp6, Cache := { DownloadLayer := fun _ => layer1 } }

/-- **C6** (counterexample): included-file paths are passed to the archive
writer verbatim, with no validation: an absolute included path `/etc/x`
becomes a tar entry named `/etc/x`, so the archive writer does admit an
absolute path. -/
theorem claim6_counterexample :
    (pkg6.Create env3).1 = .ok () ∧
    entryNames (pkg6.Create env3).2 = ["/etc/x".data] ∧
    ("/etc/x".data).head? = some '/' :=
  ⟨by decide, by decide, by decide⟩

end LibJavaBuildpack
